import Mathlib

/-!
Verification development for the retrieval core of the Document_based_QA_bot
repository (`src/server.py`): the `DocumentProcessor` chunking routine, the
`FAISSIndex` wrapper around `faiss.IndexFlatL2`, and the `RAGModel`
orchestrator (`index_document`, `query`, `clear_index`).

Modelling conventions of the shallow embedding:

* Float32 vector components are modelled as exact numbers; squared L2
  distance is computed exactly.  Only ring and order operations are used, and
  they are instantiated at `ℤ` so that every definition and every concrete
  instance is kernel-computable.
* The `faiss.IndexFlatL2` object is modelled by a list of stored vectors plus
  the fixed dimension, following faiss's documented semantics:
  `add` requires each row of the matrix to have the index dimension (the
  Python wrapper asserts `d == self.d`); `search` requires `k > 0`
  (`FAISS_THROW_IF_NOT(k > 0)` in `IndexFlat::search`) and the query row to
  have the index dimension, computes exact squared-L2 distances, and always
  returns `k` result slots per query, filling slots beyond the number of
  stored vectors with label `-1` and distance `FLT_MAX`; ties are returned in
  ascending id order.
* The file system is an association list from paths to typed file contents;
  `faiss.write_index` stores the dimension together with the vectors, and the
  chunks file stores the list of chunk strings.
* Python `str` values are modelled as `String` / `List Char`; the string
  operations used by the chunker (`split('\n\n')`, `strip()`, `split()`,
  `' '.join`) are re-implemented structurally over `List Char` so that the
  kernel can evaluate them; whitespace is space, tab, CR, LF.
* Python list indexing `chunks[idx]` (which wraps negative indices around the
  end and raises `IndexError` when out of range) is modelled by `pyGet`.
* Exceptions are modelled with `Except`; `FAISSIndex.load` can mutate the
  receiver before raising (the faiss index is replaced before the chunks file
  is opened), so its error branch carries the partially mutated state.
-/

/-- A vector: a fixed-length sequence of floating-point numbers, modelled as
exact numbers (see the module comment). -/
abbrev Vec := List ℤ

/-- Squared L2 distance between two vectors, the metric of
`faiss.IndexFlatL2`. -/
def sqDist (u v : Vec) : ℤ :=
  ((u.zip v).map fun p => (p.1 - p.2) ^ 2).sum

/-- The largest finite float32 value.  faiss fills result slots that have no
corresponding stored vector with this distance and with label `-1`. -/
def FLT_MAX : ℤ := 340282346638528859811704183484516925440

/-- The error conditions the Python code can raise in the modelled paths. -/
inductive Err where
  /-- numpy/faiss wrapper assertion `d == self.d` on `add`/`search`. -/
  | shapeMismatch
  /-- faiss raises unless `k > 0` on `search`. -/
  | invalidK
  /-- a file is missing (`FileNotFoundError` from `open`, or the
  `RuntimeError` that `faiss.read_index` raises on a missing path). -/
  | notFound
  /-- a file exists but holds data of the wrong kind. -/
  | corrupt
  /-- Python `IndexError`: list index out of range. -/
  | indexError
  deriving DecidableEq, Repr

/-- State of `FAISSIndex` (`src/server.py:42-47`): the wrapped
`faiss.IndexFlatL2` (dimension plus stored vectors, in insertion order) and
the parallel `chunks` list. -/
structure FAISSIndex where
  dimension : ℕ
  vectors : List Vec
  chunks : List String
  deriving DecidableEq, Repr

/-- `FAISSIndex.__init__` (`src/server.py:43-47`): empty index of the given
dimension (default 384). -/
def FAISSIndex.init (dimension : ℕ := 384) : FAISSIndex :=
  { dimension := dimension, vectors := [], chunks := [] }

/-- `FAISSIndex.add_vectors` (`src/server.py:49-52`): `self.index.add(vectors)`
followed by `self.chunks.extend(chunks)`.  The faiss wrapper asserts that the
matrix width equals the index dimension; no relation between the number of
vectors and the number of chunks is checked. -/
def FAISSIndex.add_vectors (s : FAISSIndex) (vectors : List Vec)
    (chunks : List String) : Except Err FAISSIndex :=
  if ∀ v ∈ vectors, v.length = s.dimension then
    .ok { s with vectors := s.vectors ++ vectors, chunks := s.chunks ++ chunks }
  else
    .error .shapeMismatch

/-- Result ranking used by the flat-index search: ascending squared distance,
ties in ascending id order. -/
def rankLe (a b : ℤ × ℤ) : Prop :=
  a.1 < b.1 ∨ (a.1 = b.1 ∧ a.2 ≤ b.2)

/-- Strict version of `rankLe`. -/
def rankLt (a b : ℤ × ℤ) : Prop :=
  a.1 < b.1 ∨ (a.1 = b.1 ∧ a.2 < b.2)

instance : DecidableRel rankLe := fun a b => by
  unfold rankLe; infer_instance

instance : DecidableRel rankLt := fun a b => by
  unfold rankLt; infer_instance

instance : IsTotal (ℤ × ℤ) rankLe where
  total a b := by
    unfold rankLe
    rcases lt_trichotomy a.1 b.1 with h | h | h
    · exact Or.inl (Or.inl h)
    · rcases le_total a.2 b.2 with h2 | h2
      · exact Or.inl (Or.inr ⟨h, h2⟩)
      · exact Or.inr (Or.inr ⟨h.symm, h2⟩)
    · exact Or.inr (Or.inl h)

instance : IsTrans (ℤ × ℤ) rankLe where
  trans a b c hab hbc := by
    unfold rankLe at *
    rcases hab with h1 | ⟨h1, h1'⟩ <;> rcases hbc with h2 | ⟨h2, h2'⟩
    · exact Or.inl (h1.trans h2)
    · exact Or.inl (h2 ▸ h1)
    · exact Or.inl (h1 ▸ h2)
    · exact Or.inr ⟨h1.trans h2, h1'.trans h2'⟩

/-- The scored candidate list: each stored vector paired with its squared
distance to the query, tagged with its insertion index. -/
def scoredOf (query : Vec) (vectors : List Vec) : List (ℤ × ℤ) :=
  vectors.enum.map fun p => (sqDist query p.2, (p.1 : ℤ))

/-- The `k` result slots faiss produces for one query row: the `min k n`
nearest stored vectors in ascending (distance, id) order, padded to exactly
`k` slots with `(FLT_MAX, -1)`. -/
def FAISSIndex.searchResults (s : FAISSIndex) (query : Vec) (k : ℕ) :
    List (ℤ × ℤ) :=
  (List.insertionSort rankLe (scoredOf query s.vectors)).take k ++
    List.replicate (k - s.vectors.length) (FLT_MAX, -1)

/-- `FAISSIndex.search` (`src/server.py:54-56`): reshapes the query to one row
and calls `self.index.search(query_row, k)`, returning the distance row and
the label row. -/
def FAISSIndex.search (s : FAISSIndex) (query : Vec) (k : ℕ) :
    Except Err (List ℤ × List ℤ) :=
  if query.length ≠ s.dimension then .error .shapeMismatch
  else if k = 0 then .error .invalidK
  else .ok ((s.searchResults query k).map Prod.fst,
    (s.searchResults query k).map Prod.snd)

/-- `FAISSIndex.search` as a state transformer: the method reads
`self.index` and assigns to no field of `self`. -/
def FAISSIndex.searchM (s : FAISSIndex) (query : Vec) (k : ℕ) :
    Except Err (List ℤ × List ℤ) × FAISSIndex :=
  (s.search query k, s)

/-- Contents of a persisted file: either a serialized faiss index
(`faiss.write_index` stores the dimension and the vectors) or the JSON chunk
list. -/
inductive FileData where
  | indexData (dimension : ℕ) (vectors : List Vec)
  | chunksData (chunks : List String)
  deriving DecidableEq, Repr

/-- The file system: an association list from paths to file contents. -/
structure FS where
  entries : List (String × FileData)
  deriving DecidableEq, Repr

/-- Read the file at `path`, if present. -/
def FS.read (fs : FS) (path : String) : Option FileData :=
  (fs.entries.find? fun e => e.1 == path).map Prod.snd

/-- Overwrite the file at `path`. -/
def FS.write (fs : FS) (path : String) (data : FileData) : FS :=
  ⟨(path, data) :: fs.entries⟩

/-- `os.remove`-with-`os.path.exists`-guard: delete the file at `path` if
present. -/
def FS.remove (fs : FS) (path : String) : FS :=
  ⟨fs.entries.filter fun e => e.1 != path⟩

/-- `os.path.exists`. -/
def FS.pathExists (fs : FS) (path : String) : Bool :=
  (fs.read path).isSome

/-- `FAISSIndex.save` (`src/server.py:58-62`): `faiss.write_index` to
`index_file`, then the chunk list as JSON to `chunks_file`, each fully
overwriting prior content. -/
def FAISSIndex.save (s : FAISSIndex) (fs : FS)
    (index_file chunks_file : String) : FS :=
  (fs.write index_file (.indexData s.dimension s.vectors)).write
    chunks_file (.chunksData s.chunks)

/-- `FAISSIndex.load` (`src/server.py:64-68`): `self.index =
faiss.read_index(index_file)` (replacing dimension and vectors) and then
`self.chunks = json.load(open(chunks_file))`.  No consistency check between
the two files is performed.  An exception raised after the first assignment
leaves the index replaced but the chunks untouched, so the error branch
carries the state at the moment of the raise. -/
def FAISSIndex.load (s : FAISSIndex) (fs : FS)
    (index_file chunks_file : String) :
    Except (Err × FAISSIndex) FAISSIndex :=
  match fs.read index_file with
  | none => .error (.notFound, s)
  | some (.chunksData _) => .error (.corrupt, s)
  | some (.indexData d vs) =>
    match fs.read chunks_file with
    | none => .error (.notFound, { s with dimension := d, vectors := vs })
    | some (.indexData _ _) =>
      .error (.corrupt, { s with dimension := d, vectors := vs })
    | some (.chunksData cs) =>
      .ok { dimension := d, vectors := vs, chunks := cs }

/-! ### The chunker (`DocumentProcessor.process_pdf`, `src/server.py:17-36`)

Python string operations are re-implemented structurally over `List Char`:
`text.split('\n\n')`, `str.strip()`, `str.split()` (whitespace split) and
`' '.join(...)`. -/

/-- `text.split('\n\n')`: split on each non-overlapping occurrence of two
consecutive newlines, scanning left to right; empty pieces are kept
(Python `str.split` with an explicit separator). -/
def splitOnNlNlAux : List Char → List Char → List (List Char)
  | acc, [] => [acc.reverse]
  | acc, '\n' :: '\n' :: rest => acc.reverse :: splitOnNlNlAux [] rest
  | acc, c :: rest => splitOnNlNlAux (c :: acc) rest

/-- `text.split('\n\n')`. -/
def pySplitNlNl (s : List Char) : List (List Char) :=
  splitOnNlNlAux [] s

/-- `str.strip()`: remove leading and trailing whitespace. -/
def pyStrip (s : List Char) : List Char :=
  ((s.dropWhile Char.isWhitespace).reverse.dropWhile Char.isWhitespace).reverse

/-- `str.split()` with no argument: split on runs of whitespace, never
producing empty words.  `acc` holds the current word, reversed. -/
def splitWsAux : List Char → List Char → List (List Char)
  | acc, [] => if acc.isEmpty then [] else [acc.reverse]
  | acc, c :: rest =>
    if c.isWhitespace then
      if acc.isEmpty then splitWsAux [] rest
      else acc.reverse :: splitWsAux [] rest
    else splitWsAux (c :: acc) rest

/-- `paragraph.split()`. -/
def pySplitWs (s : List Char) : List (List Char) :=
  splitWsAux [] s

/-- `' '.join(words)`. -/
def joinWords : List (List Char) → List Char
  | [] => []
  | [w] => w
  | w :: ws => w ++ ' ' :: joinWords ws

/-- The loop `for i in range(0, len(words), 100): ... ' '.join(words[i:i+100])`
as a structural recursion: `cap` counts how many more words fit in the group
under construction and `acc` holds that group, reversed. -/
def wordGroupsAux : ℕ → List (List Char) → List (List Char) → List (List Char)
  | _, acc, [] => if acc.isEmpty then [] else [joinWords acc.reverse]
  | 0, acc, w :: ws => joinWords acc.reverse :: wordGroupsAux 99 [w] ws
  | n + 1, acc, w :: ws => wordGroupsAux n (w :: acc) ws

/-- The word groups of 100 produced for one over-long paragraph. -/
def wordGroups (words : List (List Char)) : List (List Char) :=
  match words with
  | [] => []
  | w :: ws => wordGroupsAux 99 [w] ws

/-- The slice formulation of the same loop, `' '.join(words[i:i+100])` for
`i = 0, 100, 200, ...`; used to relate `wordGroups` to the source's slicing
(proved equal below). -/
def wordGroupsSlices (words : List (List Char)) : List (List Char) :=
  if h : words = [] then []
  else joinWords (words.take 100) :: wordGroupsSlices (words.drop 100)
termination_by words.length
decreasing_by
  simp only [List.length_drop]
  have h1 : 0 < words.length := List.length_pos.mpr h
  omega

/-- The body of the paragraph loop (`src/server.py:27-35`): paragraphs longer
than 512 characters are re-split into word groups (each appended only `if
chunk:`, i.e. if non-empty); shorter paragraphs are appended unchanged. -/
def chunkParagraph (p : List Char) : List (List Char) :=
  if p.length > 512 then
    (wordGroups (pySplitWs p)).filter fun c => !c.isEmpty
  else [p]

/-- Chunking of one page's extracted text (`src/server.py:23-35`):
`paragraphs = [p.strip() for p in text.split('\n\n') if p.strip()]`, then the
paragraph loop. -/
def processPageText (text : List Char) : List (List Char) :=
  (((pySplitNlNl text).map pyStrip).filter fun p => !p.isEmpty).flatMap
    chunkParagraph

/-- `DocumentProcessor.process_pdf` on one page's text, at `String` level. -/
def processText (text : String) : List String :=
  (processPageText text.data).map fun l => String.mk l

/-- `DocumentProcessor.process_pdf` (`src/server.py:17-36`): the PDF is
abstracted as the list of its pages' extracted texts (text extraction is an
external collaborator); chunks accumulate over the pages in order. -/
def processPdf (pages : List String) : List String :=
  (pages.map processText).flatten

/-- Modelled from the spec's words (section 4.1), for comparison with the
source chunker: split into paragraph-like units on blank-line boundaries,
discard units empty after trimming, emit units of at most 512 characters
unchanged, and re-split longer units into word groups of 100 (the slice
formulation), each group joined with single spaces. -/
def chunkSpec (text : String) : List String :=
  ((((pySplitNlNl text.data).map pyStrip).filter fun p => !p.isEmpty).flatMap
    fun p =>
      if p.length ≤ 512 then [p] else wordGroupsSlices (pySplitWs p)).map
    fun l => String.mk l

/-! ### The orchestrator (`RAGModel`, `src/server.py:70-150`) -/

/-- `self.index_file = 'data/faiss.index'` (`src/server.py:85`). -/
def indexFile : String := "data/faiss.index"

/-- `self.chunks_file = 'data/chunks.json'` (`src/server.py:86`). -/
def chunksFile : String := "data/chunks.json"

/-- The orchestrator state: the in-memory `FAISSIndex` and the file system
holding the two persisted-state locations.  The embedding and generation
collaborators are passed to the operations as opaque functions. -/
structure RAGState where
  idx : FAISSIndex
  fs : FS
  deriving DecidableEq, Repr

/-- Python list indexing `l[i]` for a possibly negative `i`: negative indices
count from the end; an out-of-range index raises `IndexError` (`none`). -/
def pyGet (l : List α) (i : ℤ) : Option α :=
  if 0 ≤ i then l.get? i.toNat
  else if 0 ≤ i + l.length then l.get? (i + l.length).toNat
  else none

/-- `' '.join(contexts)` at `String` level. -/
def joinSpace (l : List String) : String :=
  String.mk (joinWords (l.map String.data))

/-- The prompt f-string of `RAGModel.query` (`src/server.py:120-127`). -/
def promptOf (contexts : List String) (question : String) : String :=
  "Based on the following contexts, answer the question.\n        \nContexts:\n"
    ++ joinSpace contexts ++ "\n\nQuestion: " ++ question ++ "\n\nAnswer:"

/-- The dictionary `RAGModel.query` returns (`src/server.py:138-142`). -/
structure QueryResult where
  answer : String
  contexts : List String
  distances : List ℤ
  deriving DecidableEq, Repr

/-- `RAGModel.query` (`src/server.py:108-142`): embed the question, search the
index for `top_k` nearest labels, fetch `self.index.chunks[idx]` for every
returned label (Python indexing: `-1` wraps to the last chunk, and raises
`IndexError` on an empty list), build the prompt, call the generator, and
strip the generated text.  `embed` and `gen` are the opaque external
collaborators.  The state is threaded and returned alongside the result. -/
def RAGModel.query (embed : String → Vec) (gen : String → String)
    (s : RAGState) (question : String) (top_k : ℕ := 3) :
    Except Err QueryResult × RAGState :=
  match FAISSIndex.search s.idx (embed question) top_k with
  | .error e => (.error e, s)
  | .ok (distances, indices) =>
    match indices.mapM (pyGet s.idx.chunks) with
    | none => (.error .indexError, s)
    | some contexts =>
      (.ok { answer := (gen (promptOf contexts question)).trim,
             contexts := contexts, distances := distances }, s)

/-- `RAGModel.index_document` (`src/server.py:92-106`): chunk the document,
embed every chunk (`create_embeddings` maps the encoder over the chunk list),
add vectors and chunks to the index, save the index to the two persisted
locations, and return the number of chunks. -/
def RAGModel.index_document (embed : String → Vec) (s : RAGState)
    (pages : List String) : Except Err (ℕ × RAGState) :=
  let chunks := processPdf pages
  let embeddings := chunks.map embed
  match s.idx.add_vectors embeddings chunks with
  | .error e => .error e
  | .ok idx' =>
    .ok (chunks.length,
      { idx := idx', fs := idx'.save s.fs indexFile chunksFile })

/-- `RAGModel.clear_index` (`src/server.py:144-150`): replace the index with
a fresh `FAISSIndex()` (dimension 384) and delete each persisted file if it
exists. -/
def RAGModel.clear_index (s : RAGState) : RAGState :=
  { idx := FAISSIndex.init 384,
    fs := (s.fs.remove indexFile).remove chunksFile }

/-! ### Operation sequences over the index (for the alignment invariant) -/

/-- The invariant of the parallel collections: as many stored vectors as
stored chunks. -/
abbrev aligned (i : FAISSIndex) : Prop :=
  i.vectors.length = i.chunks.length

/-- A mutating operation on the index: `add_vectors`, `load`, or the
orchestrator's `clear_index`. -/
inductive IndexOp where
  | add (vectors : List Vec) (chunks : List String)
  | load (index_file chunks_file : String)
  | clear
  deriving Repr

/-- Run one operation, with Python exception semantics: a raised exception
leaves the state as it was at the moment of the raise (`load` may have
already replaced the faiss index). -/
def stepOp (s : RAGState) : IndexOp → RAGState
  | .add vs cs =>
    match s.idx.add_vectors vs cs with
    | .ok i => { s with idx := i }
    | .error _ => s
  | .load fi fc =>
    match s.idx.load s.fs fi fc with
    | .ok i => { s with idx := i }
    | .error (_, i) => { s with idx := i }
  | .clear => RAGModel.clear_index s

/-- Run a sequence of operations. -/
def runOps (s : RAGState) (ops : List IndexOp) : RAGState :=
  ops.foldl stepOp s

/-- Well-formedness of one operation in a state: an `add` passes as many
vectors as chunks; a `load` names two existing locations whose contents are
of the right kinds and hold equally many vectors and chunks; `clear` is
always well-formed. -/
def wfOp (s : RAGState) : IndexOp → Bool
  | .add vs cs => vs.length == cs.length
  | .load fi fc =>
    match s.fs.read fi, s.fs.read fc with
    | some (.indexData _ vs), some (.chunksData cs) => vs.length == cs.length
    | _, _ => false
  | .clear => true

/-- Well-formedness of an operation sequence, each operation judged in the
state it actually runs in. -/
def wfOps (s : RAGState) : List IndexOp → Bool
  | [] => true
  | op :: rest => wfOp s op && wfOps (stepOp s op) rest

instance {ε α} [DecidableEq ε] [DecidableEq α] : DecidableEq (Except ε α)
  | .ok a, .ok b =>
    if h : a = b then .isTrue (by rw [h]) else .isFalse (by simp [h])
  | .error a, .error b =>
    if h : a = b then .isTrue (by rw [h]) else .isFalse (by simp [h])
  | .ok _, .error _ => .isFalse (by simp)
  | .error _, .ok _ => .isFalse (by simp)

/-! ### File-system lemmas -/

theorem FS.read_write_self (fs : FS) (p : String) (d : FileData) :
    (fs.write p d).read p = some d := by
  simp [FS.read, FS.write]

theorem FS.read_write_ne (fs : FS) (p q : String) (d : FileData) (h : q ≠ p) :
    (fs.write p d).read q = fs.read q := by
  simp [FS.read, FS.write, List.find?_cons, Ne.symm h]

theorem FS.read_remove_self (fs : FS) (p : String) :
    (fs.remove p).read p = none := by
  obtain ⟨es⟩ := fs
  simp only [FS.read, FS.remove, Option.map_eq_none', List.find?_eq_none,
    List.mem_filter]
  rintro x ⟨hmem, hf⟩
  simpa using hf

theorem FS.read_remove_ne (fs : FS) (p q : String) (h : q ≠ p) :
    (fs.remove p).read q = fs.read q := by
  obtain ⟨es⟩ := fs
  simp only [FS.read, FS.remove]
  congr 1
  induction es with
  | nil => rfl
  | cons e es ih =>
    by_cases he : e.1 = p
    · simp [List.filter_cons, List.find?_cons, he, h, Ne.symm h, ih]
    · by_cases heq : e.1 = q
      · simp [List.filter_cons, List.find?_cons, he, heq, h, Ne.symm h]
      · simp [List.filter_cons, List.find?_cons, he, heq, h, Ne.symm h, ih]

theorem FS.remove_remove_self (fs : FS) (p : String) :
    (fs.remove p).remove p = fs.remove p := by
  simp [FS.remove, List.filter_filter]

theorem FS.remove_comm (fs : FS) (p q : String) :
    (fs.remove p).remove q = (fs.remove q).remove p := by
  simp only [FS.remove, List.filter_filter, FS.mk.injEq]
  congr 1
  funext e
  exact Bool.and_comm _ _

/-! ### Chunker lemmas -/

theorem wordGroupsAux_eq (ws : List (List Char)) :
    ∀ (cap : ℕ) (acc : List (List Char)), acc ≠ [] →
    wordGroupsAux cap acc ws =
      joinWords (acc.reverse ++ ws.take cap) ::
        wordGroupsSlices (ws.drop cap) := by
  induction ws with
  | nil =>
    intro cap acc hacc
    have hred : wordGroupsAux cap acc [] =
        if acc.isEmpty then [] else [joinWords acc.reverse] := by
      cases cap <;> rfl
    rw [hred, if_neg (by simpa using hacc)]
    rw [List.take_nil, List.drop_nil, List.append_nil]
    rw [wordGroupsSlices]
    simp
  | cons w ws ih =>
    intro cap acc hacc
    cases cap with
    | zero =>
      rw [show wordGroupsAux 0 acc (w :: ws) =
        joinWords acc.reverse :: wordGroupsAux 99 [w] ws from rfl]
      rw [ih 99 [w] (by simp)]
      rw [List.take_zero, List.drop_zero, List.append_nil]
      conv_rhs => rw [wordGroupsSlices]
      rw [dif_neg (show ¬(w :: ws = []) by simp)]
      rw [show (100 : ℕ) = 99 + 1 from rfl]
      rw [List.take_succ_cons, List.drop_succ_cons]
      rfl
    | succ n =>
      rw [show wordGroupsAux (n + 1) acc (w :: ws) =
        wordGroupsAux n (w :: acc) ws from rfl]
      rw [ih n (w :: acc) (by simp)]
      rw [List.reverse_cons, List.take_succ_cons, List.drop_succ_cons,
        List.append_assoc]
      rfl

theorem wordGroups_eq_slices (ws : List (List Char)) :
    wordGroups ws = wordGroupsSlices ws := by
  cases ws with
  | nil =>
    rw [show wordGroups [] = [] from rfl, wordGroupsSlices]
    simp
  | cons w ws =>
    rw [show wordGroups (w :: ws) = wordGroupsAux 99 [w] ws from rfl]
    rw [wordGroupsAux_eq ws 99 [w] (by simp)]
    conv_rhs => rw [wordGroupsSlices]
    rw [dif_neg (show ¬(w :: ws = []) by simp)]
    rw [show (100 : ℕ) = 99 + 1 from rfl]
    rw [List.take_succ_cons, List.drop_succ_cons]
    rfl

theorem splitWsAux_mem_ne_nil :
    ∀ (s acc w : List Char), w ∈ splitWsAux acc s → w ≠ [] := by
  intro s
  induction s with
  | nil =>
    intro acc w hw
    rw [show splitWsAux acc [] =
      if acc.isEmpty then [] else [acc.reverse] from rfl] at hw
    by_cases h : acc.isEmpty
    · rw [if_pos h] at hw
      cases hw
    · rw [if_neg h] at hw
      simp only [List.mem_singleton] at hw
      subst hw
      simp only [ne_eq, List.reverse_eq_nil_iff]
      simpa using h
  | cons c rest ih =>
    intro acc w hw
    rw [show splitWsAux acc (c :: rest) =
      if c.isWhitespace then
        (if acc.isEmpty then splitWsAux [] rest
         else acc.reverse :: splitWsAux [] rest)
      else splitWsAux (c :: acc) rest from rfl] at hw
    by_cases h1 : c.isWhitespace
    · rw [if_pos h1] at hw
      by_cases h2 : acc.isEmpty
      · rw [if_pos h2] at hw
        exact ih [] w hw
      · rw [if_neg h2] at hw
        rcases List.mem_cons.mp hw with h | h
        · subst h
          simp only [ne_eq, List.reverse_eq_nil_iff]
          simpa using h2
        · exact ih [] w h
    · rw [if_neg h1] at hw
      exact ih (c :: acc) w hw

theorem joinWords_ne_nil (ws : List (List Char)) (h : ws ≠ [])
    (hh : ∀ w ∈ ws, w ≠ []) : joinWords ws ≠ [] := by
  cases ws with
  | nil => exact absurd rfl h
  | cons w ws =>
    cases ws with
    | nil => exact hh w (by simp)
    | cons w2 ws2 =>
      rw [show joinWords (w :: w2 :: ws2) =
        w ++ ' ' :: joinWords (w2 :: ws2) from rfl]
      simp

theorem wordGroupsSlices_mem_ne_nil (ws : List (List Char)) :
    (∀ w ∈ ws, w ≠ []) → ∀ c ∈ wordGroupsSlices ws, c ≠ [] := by
  induction ws using wordGroupsSlices.induct with
  | case1 =>
    intro _ c hc
    rw [wordGroupsSlices] at hc
    simp at hc
  | case2 ws h ih =>
    intro hws c hc
    rw [wordGroupsSlices, dif_neg h] at hc
    rcases List.mem_cons.mp hc with hcc | hcc
    · subst hcc
      refine joinWords_ne_nil _ ?_ ?_
      · rw [ne_eq, List.take_eq_nil_iff]
        simp [h]
      · intro w hw
        exact hws w (List.take_subset _ _ hw)
    · exact ih (fun w hw => hws w (List.drop_subset _ _ hw)) c hcc

theorem chunkParagraph_eq_spec (p : List Char) :
    chunkParagraph p =
      if p.length ≤ 512 then [p] else wordGroupsSlices (pySplitWs p) := by
  unfold chunkParagraph
  by_cases h : p.length > 512
  · rw [if_pos h, if_neg (by omega), wordGroups_eq_slices]
    apply List.filter_eq_self.mpr
    intro c hc
    have hne := wordGroupsSlices_mem_ne_nil (pySplitWs p)
      (fun w hw => splitWsAux_mem_ne_nil p [] w hw) c hc
    simpa using hne
  · rw [if_neg h, if_pos (by omega)]

/-! ### Search lemmas -/

theorem scoredOf_length (q : Vec) (vs : List Vec) :
    (scoredOf q vs).length = vs.length := by
  simp [scoredOf, List.enum_length]

theorem scoredOf_map_snd (q : Vec) (vs : List Vec) :
    (scoredOf q vs).map Prod.snd = (List.range vs.length).map Int.ofNat := by
  unfold scoredOf
  rw [List.map_map, ← List.enum_map_fst vs, List.map_map]
  rfl

theorem scoredOf_snd_nodup (q : Vec) (vs : List Vec) :
    ((scoredOf q vs).map Prod.snd).Nodup := by
  rw [scoredOf_map_snd]
  exact ((List.nodup_range _).map fun a b hh => Int.ofNat.inj hh)

theorem mem_scoredOf {q : Vec} {vs : List Vec} {p : ℤ × ℤ}
    (hp : p ∈ scoredOf q vs) :
    ∃ i : ℕ, ∃ h : i < vs.length,
      p.2 = (i : ℤ) ∧ p.1 = sqDist q (vs.get ⟨i, h⟩) := by
  simp only [scoredOf, List.mem_map] at hp
  obtain ⟨⟨i, v⟩, hmem, rfl⟩ := hp
  obtain ⟨hi, hv⟩ := List.getElem?_eq_some.mp
    (List.mk_mem_enum_iff_getElem?.mp hmem)
  exact ⟨i, hi, rfl, by simp [List.get_eq_getElem, hv]⟩

theorem sortedScored_length (q : Vec) (vs : List Vec) :
    (List.insertionSort rankLe (scoredOf q vs)).length = vs.length := by
  rw [(List.perm_insertionSort rankLe _).length_eq, scoredOf_length]

theorem sortedScored_snd_nodup (q : Vec) (vs : List Vec) :
    ((List.insertionSort rankLe (scoredOf q vs)).map Prod.snd).Nodup :=
  (((List.perm_insertionSort rankLe _).map Prod.snd).nodup_iff).mpr
    (scoredOf_snd_nodup q vs)

theorem searchResults_length (s : FAISSIndex) (q : Vec) (k : ℕ) :
    (s.searchResults q k).length = k := by
  unfold FAISSIndex.searchResults
  simp [List.length_take, sortedScored_length, scoredOf_length]
  omega

theorem searchResults_take (s : FAISSIndex) (q : Vec) (k : ℕ) :
    (s.searchResults q k).take (min k s.vectors.length) =
      (List.insertionSort rankLe (scoredOf q s.vectors)).take k := by
  unfold FAISSIndex.searchResults
  rw [List.take_left']
  simp [List.length_take, sortedScored_length, scoredOf_length]

theorem searchResults_drop (s : FAISSIndex) (q : Vec) (k : ℕ) :
    (s.searchResults q k).drop (min k s.vectors.length) =
      List.replicate (k - s.vectors.length) (FLT_MAX, -1) := by
  unfold FAISSIndex.searchResults
  rw [List.drop_left']
  simp [List.length_take, sortedScored_length, scoredOf_length]

theorem search_ok (s : FAISSIndex) (q : Vec) (k : ℕ)
    (hq : q.length = s.dimension) (hk : k ≠ 0) :
    s.search q k = .ok ((s.searchResults q k).map Prod.fst,
      (s.searchResults q k).map Prod.snd) := by
  unfold FAISSIndex.search
  rw [if_neg (by simp [hq]), if_neg hk]

theorem searchResults_pairwise (s : FAISSIndex) (q : Vec) (k : ℕ)
    (hkn : k ≤ s.vectors.length) :
    List.Pairwise rankLt (s.searchResults q k) := by
  have heq : s.searchResults q k =
      (List.insertionSort rankLe (scoredOf q s.vectors)).take k := by
    unfold FAISSIndex.searchResults
    simp [Nat.sub_eq_zero_of_le hkn]
  rw [heq]
  have hle : List.Pairwise rankLe
      ((List.insertionSort rankLe (scoredOf q s.vectors)).take k) :=
    (List.sorted_insertionSort rankLe _).sublist (List.take_sublist _ _)
  have hnd : (((List.insertionSort rankLe (scoredOf q s.vectors)).take k).map
      Prod.snd).Nodup :=
    (sortedScored_snd_nodup q s.vectors).sublist
      ((List.take_sublist _ _).map Prod.snd)
  have hne : List.Pairwise (fun a b : ℤ × ℤ => a.2 ≠ b.2)
      ((List.insertionSort rankLe (scoredOf q s.vectors)).take k) :=
    List.pairwise_map.mp hnd
  refine (hle.and hne).imp ?_
  rintro a b ⟨hab, hne2⟩
  rcases hab with h | ⟨h1, h2⟩
  · exact Or.inl h
  · exact Or.inr ⟨h1, lt_of_le_of_ne h2 hne2⟩

theorem searchResults_mem (s : FAISSIndex) (q : Vec) (k : ℕ)
    (hkn : k ≤ s.vectors.length) {p : ℤ × ℤ}
    (hp : p ∈ s.searchResults q k) :
    ∃ i : ℕ, ∃ h : i < s.vectors.length,
      p.2 = (i : ℤ) ∧ p.1 = sqDist q (s.vectors.get ⟨i, h⟩) := by
  have heq : s.searchResults q k =
      (List.insertionSort rankLe (scoredOf q s.vectors)).take k := by
    unfold FAISSIndex.searchResults
    simp [Nat.sub_eq_zero_of_le hkn]
  rw [heq] at hp
  exact mem_scoredOf ((List.perm_insertionSort rankLe _).mem_iff.mp
    (List.mem_of_mem_take hp))

/-! ### Claim C5 -/

/-- Claim C5: for every index state, `save` to two (distinct) locations
followed by `load` from those locations into a fresh (or any) index yields an
index whose ordered vectors and ordered chunks are element-wise identical to
the pre-save state (the model serializes exactly, as do `faiss.write_index`
and JSON for the stored values). -/
theorem save_load_roundtrip (s₀ s : FAISSIndex) (fs : FS)
    (index_file chunks_file : String) (h : index_file ≠ chunks_file) :
    s₀.load (s.save fs index_file chunks_file) index_file chunks_file =
      .ok s := by
  unfold FAISSIndex.save FAISSIndex.load
  rw [FS.read_write_ne _ _ _ _ h, FS.read_write_self, FS.read_write_self]

/-! ### Claims C3 and C4 -/

/-- Counterexample to claim C3 as stated: on an index of size `n = 1`,
`search` with `k = 2` returns two result slots (the second a `-1`/`FLT_MAX`
sentinel), not exactly `n = 1` results; `search` with `k = 0` raises instead
of returning an empty result; and on an empty index `search` with `k = 1`
returns one sentinel slot, not an empty result. -/
theorem search_result_count_counterexample :
    FAISSIndex.search ⟨1, [[3]], ["a"]⟩ [3] 2 =
      .ok ([0, FLT_MAX], [0, -1]) ∧
    ([0, FLT_MAX] : List ℤ).length ≠
      (⟨1, [[3]], ["a"]⟩ : FAISSIndex).vectors.length ∧
    FAISSIndex.search ⟨1, [[3]], ["a"]⟩ [3] 0 = .error .invalidK ∧
    FAISSIndex.search ⟨1, [], []⟩ [3] 1 = .ok ([FLT_MAX], [-1]) ∧
    FAISSIndex.search ⟨1, [], []⟩ [3] 1 ≠ .ok ([], []) :=
  ⟨by decide, by decide, by decide, by decide, by decide⟩

/-- Claim C3 (amended): for a valid query, `search` with `k = 0` raises; with
`k ≥ 1` it always returns exactly `k` result slots — the first
`min k n` slots carry labels of stored vectors and the remaining `k - n`
slots are `(FLT_MAX, -1)` sentinels; on an empty index every slot is a
sentinel (and no error is raised). -/
theorem search_slot_semantics :
    (∀ (s : FAISSIndex) (q : Vec), q.length = s.dimension →
      s.search q 0 = .error .invalidK) ∧
    (∀ (s : FAISSIndex) (q : Vec) (k : ℕ), q.length = s.dimension → k ≠ 0 →
      ∃ res : List (ℤ × ℤ),
        s.search q k = .ok (res.map Prod.fst, res.map Prod.snd) ∧
        res.length = k ∧
        res.drop (min k s.vectors.length) =
          List.replicate (k - s.vectors.length) (FLT_MAX, -1) ∧
        (∀ p ∈ res.take (min k s.vectors.length), ∃ i : ℕ,
          i < s.vectors.length ∧ p.2 = (i : ℤ)) ∧
        (s.vectors = [] → res = List.replicate k (FLT_MAX, -1))) := by
  constructor
  · intro s q hq
    unfold FAISSIndex.search
    rw [if_neg (by simp [hq]), if_pos rfl]
  · intro s q k hq hk
    refine ⟨s.searchResults q k, search_ok s q k hq hk,
      searchResults_length s q k, searchResults_drop s q k, ?_, ?_⟩
    · intro p hp
      rw [searchResults_take] at hp
      obtain ⟨i, hi, h2, _⟩ := mem_scoredOf
        ((List.perm_insertionSort rankLe _).mem_iff.mp
          (List.mem_of_mem_take hp))
      exact ⟨i, hi, h2⟩
    · intro hempty
      unfold FAISSIndex.searchResults
      simp [hempty, scoredOf]

/-- Witness for the amended C3 at concrete inputs. -/
theorem search_slot_semantics_witness :
    FAISSIndex.search ⟨2, [[1, 1]], ["a"]⟩ [1, 2] 0 = .error .invalidK ∧
    ∃ res : List (ℤ × ℤ),
      FAISSIndex.search ⟨2, [[1, 1]], ["a"]⟩ [1, 2] 3 =
        .ok (res.map Prod.fst, res.map Prod.snd) ∧
      res.length = 3 ∧
      res.drop (min 3 (⟨2, [[1, 1]], ["a"]⟩ : FAISSIndex).vectors.length) =
        List.replicate (3 - (⟨2, [[1, 1]], ["a"]⟩ : FAISSIndex).vectors.length)
          (FLT_MAX, -1) ∧
      (∀ p ∈ res.take
          (min 3 (⟨2, [[1, 1]], ["a"]⟩ : FAISSIndex).vectors.length),
        ∃ i : ℕ,
          i < (⟨2, [[1, 1]], ["a"]⟩ : FAISSIndex).vectors.length ∧
          p.2 = (i : ℤ)) ∧
      ((⟨2, [[1, 1]], ["a"]⟩ : FAISSIndex).vectors = [] →
        res = List.replicate 3 (FLT_MAX, -1)) :=
  ⟨search_slot_semantics.1 ⟨2, [[1, 1]], ["a"]⟩ [1, 2] (by decide),
   search_slot_semantics.2 ⟨2, [[1, 1]], ["a"]⟩ [1, 2] 3 (by decide)
     (by decide)⟩

/-- Counterexample to claim C4 as stated (for every `k`): with one stored
vector and `k = 2`, the returned label row contains the sentinel `-1`, which
is not the position of any previously added chunk. -/
theorem search_sentinel_label_counterexample :
    FAISSIndex.search ⟨1, [[5]], ["a"]⟩ [5] 2 = .ok ([0, FLT_MAX], [0, -1]) ∧
    ¬ ∀ i ∈ ([0, -1] : List ℤ), 0 ≤ i ∧ i.toNat <
      (⟨1, [[5]], ["a"]⟩ : FAISSIndex).chunks.length :=
  ⟨by decide, by decide⟩

/-- Claim C4 (amended with `k ≤ n`): on a non-empty index whose parallel
collections are aligned, for a valid query and `1 ≤ k ≤ n`, `search` returns
labels that are all positions of previously added chunks, each paired with
the true squared L2 distance from the query to the vector stored at that
position, and the result rows are sorted by strictly ascending
(distance, label) — i.e. non-decreasing distance with ties broken by
insertion order, lower index first. -/
theorem search_sorted_from_added (s : FAISSIndex) (q : Vec) (k : ℕ)
    (hal : aligned s) (hq : q.length = s.dimension) (hk : k ≠ 0)
    (hkn : k ≤ s.vectors.length) :
    ∃ res : List (ℤ × ℤ),
      s.search q k = .ok (res.map Prod.fst, res.map Prod.snd) ∧
      res.length = k ∧
      List.Pairwise rankLt res ∧
      ∀ p ∈ res, ∃ i : ℕ, ∃ h : i < s.vectors.length,
        i < s.chunks.length ∧ p.2 = (i : ℤ) ∧
        p.1 = sqDist q (s.vectors.get ⟨i, h⟩) := by
  refine ⟨s.searchResults q k, search_ok s q k hq hk,
    searchResults_length s q k, searchResults_pairwise s q k hkn, ?_⟩
  intro p hp
  obtain ⟨i, hi, h2, h1⟩ := searchResults_mem s q k hkn hp
  exact ⟨i, hi, hal ▸ hi, h2, h1⟩

/-- Witness for the amended C4: three stored vectors, two of them at equal
distance from the query (the tie resolved by insertion order). -/
theorem search_sorted_from_added_witness :
    ∃ res : List (ℤ × ℤ),
      FAISSIndex.search ⟨1, [[0], [1], [0]], ["a", "b", "c"]⟩ [0] 3 =
        .ok (res.map Prod.fst, res.map Prod.snd) ∧
      res.length = 3 ∧
      List.Pairwise rankLt res ∧
      ∀ p ∈ res, ∃ i : ℕ,
        ∃ h : i < (⟨1, [[0], [1], [0]], ["a", "b", "c"]⟩ :
          FAISSIndex).vectors.length,
        i < (⟨1, [[0], [1], [0]], ["a", "b", "c"]⟩ :
          FAISSIndex).chunks.length ∧ p.2 = (i : ℤ) ∧
        p.1 = sqDist [0]
          ((⟨1, [[0], [1], [0]], ["a", "b", "c"]⟩ :
            FAISSIndex).vectors.get ⟨i, h⟩) :=
  search_sorted_from_added ⟨1, [[0], [1], [0]], ["a", "b", "c"]⟩ [0] 3
    (by decide) (by decide) (by decide) (by decide)

/-- Witness for C5 at a concrete pre-save state and fresh target index. -/
theorem save_load_roundtrip_witness :
    FAISSIndex.load (FAISSIndex.init 384)
        ((⟨2, [[0, 1]], ["c"]⟩ : FAISSIndex).save ⟨[]⟩ "i.bin" "c.json")
        "i.bin" "c.json" =
      .ok ⟨2, [[0, 1]], ["c"]⟩ :=
  save_load_roundtrip (FAISSIndex.init 384) ⟨2, [[0, 1]], ["c"]⟩ ⟨[]⟩
    "i.bin" "c.json" (by decide)

/-! ### Claim C2 -/

/-- Counterexample to claim C2 as stated: an `add` with one vector and two
chunks does not fail with a ShapeMismatch error — it succeeds and appends
both collections as given. -/
theorem add_vectors_no_length_check :
    FAISSIndex.add_vectors ⟨1, [], []⟩ [[0]] ["a", "b"] =
      .ok ⟨1, [[0]], ["a", "b"]⟩ ∧
    FAISSIndex.add_vectors ⟨1, [], []⟩ [[0]] ["a", "b"] ≠
      .error .shapeMismatch :=
  ⟨by decide, by decide⟩

/-- Claim C2 (amended): `add` fails with the ShapeMismatch assertion exactly
when some vector's length differs from the index's fixed dimension D; the
relative lengths of the vector and chunk sequences are not checked. When all
vectors have dimension D, both collections are appended in lock-step at the
end (whether or not their lengths agree). -/
theorem add_vectors_spec :
    (∀ (s : FAISSIndex) (vs : List Vec) (cs : List String),
      (∀ v ∈ vs, v.length = s.dimension) →
      s.add_vectors vs cs =
        .ok { s with vectors := s.vectors ++ vs, chunks := s.chunks ++ cs }) ∧
    (∀ (s : FAISSIndex) (vs : List Vec) (cs : List String),
      (¬ ∀ v ∈ vs, v.length = s.dimension) →
      s.add_vectors vs cs = .error .shapeMismatch) := by
  constructor
  · intro s vs cs h
    unfold FAISSIndex.add_vectors
    rw [if_pos h]
  · intro s vs cs h
    unfold FAISSIndex.add_vectors
    rw [if_neg h]

/-- Witness for the amended C2: a matching-dimension add appends in
lock-step; a wrong-dimension add raises the assertion. -/
theorem add_vectors_spec_witness :
    FAISSIndex.add_vectors ⟨1, [[9]], ["x"]⟩ [[3]] ["y"] =
      .ok ⟨1, [[9], [3]], ["x", "y"]⟩ ∧
    FAISSIndex.add_vectors ⟨1, [[9]], ["x"]⟩ [[3, 4]] ["y"] =
      .error .shapeMismatch :=
  ⟨add_vectors_spec.1 ⟨1, [[9]], ["x"]⟩ [[3]] ["y"] (by decide),
   add_vectors_spec.2 ⟨1, [[9]], ["x"]⟩ [[3, 4]] ["y"] (by decide)⟩

/-! ### Claim C6 -/

/-- Counterexample to claim C6 as stated: with both locations present but the
stored vector count (1) different from the stored chunk count (2), `load`
does not fail with a CorruptIndex error — it succeeds and leaves the two
in-memory collections misaligned. -/
theorem load_no_corrupt_check :
    FAISSIndex.load (FAISSIndex.init 384)
        ⟨[("i", .indexData 1 [[0]]), ("c", .chunksData ["a", "b"])]⟩
        "i" "c" =
      .ok ⟨1, [[0]], ["a", "b"]⟩ ∧
    ¬ aligned ⟨1, [[0]], ["a", "b"]⟩ :=
  ⟨by decide, by decide⟩

/-- Claim C6 (amended): `load` raises a not-found error when either location
is missing (if only the chunks location is missing, the faiss index has
already been replaced when the error is raised); when both locations exist
and hold data of the expected kinds, `load` succeeds unconditionally — the
deserialized vector count is never compared with the deserialized chunk
count. -/
theorem load_missing_or_mismatch :
    (∀ (s : FAISSIndex) (fs : FS) (fi fc : String), fs.read fi = none →
      s.load fs fi fc = .error (.notFound, s)) ∧
    (∀ (s : FAISSIndex) (fs : FS) (fi fc : String) (d : ℕ) (vs : List Vec),
      fs.read fi = some (.indexData d vs) → fs.read fc = none →
      s.load fs fi fc =
        .error (.notFound, { s with dimension := d, vectors := vs })) ∧
    (∀ (s : FAISSIndex) (fs : FS) (fi fc : String) (d : ℕ) (vs : List Vec)
      (cs : List String),
      fs.read fi = some (.indexData d vs) →
      fs.read fc = some (.chunksData cs) →
      s.load fs fi fc = .ok ⟨d, vs, cs⟩) := by
  refine ⟨?_, ?_, ?_⟩
  · intro s fs fi fc h
    unfold FAISSIndex.load
    rw [h]
  · intro s fs fi fc d vs h1 h2
    unfold FAISSIndex.load
    rw [h1, h2]
  · intro s fs fi fc d vs cs h1 h2
    unfold FAISSIndex.load
    rw [h1, h2]

/-- Witness for the amended C6: a missing index file, a missing chunks file
(after the faiss index was already replaced), and a mismatched-count load
that succeeds. -/
theorem load_missing_or_mismatch_witness :
    FAISSIndex.load (FAISSIndex.init 384) ⟨[]⟩ "i" "c" =
      .error (.notFound, FAISSIndex.init 384) ∧
    FAISSIndex.load (FAISSIndex.init 384) ⟨[("i", .indexData 1 [[5]])]⟩
        "i" "c" = .error (.notFound, ⟨1, [[5]], []⟩) ∧
    FAISSIndex.load (FAISSIndex.init 384)
        ⟨[("i", .indexData 1 [[5]]), ("c", .chunksData ["x", "y", "z"])]⟩
        "i" "c" = .ok ⟨1, [[5]], ["x", "y", "z"]⟩ :=
  ⟨load_missing_or_mismatch.1 _ ⟨[]⟩ "i" "c" rfl,
   load_missing_or_mismatch.2.1 _ ⟨[("i", .indexData 1 [[5]])]⟩ "i" "c"
     1 [[5]] rfl rfl,
   load_missing_or_mismatch.2.2 _
     ⟨[("i", .indexData 1 [[5]]), ("c", .chunksData ["x", "y", "z"])]⟩
     "i" "c" 1 [[5]] ["x", "y", "z"] rfl rfl⟩

/-! ### Claim C1 -/

/-- Counterexample to claim C1 as stated: from an aligned (empty) index, a
single `add` carrying one vector and two chunks leaves the collections
misaligned — the code performs no length check, so not every `add` preserves
the invariant. -/
theorem alignment_not_unconditional :
    aligned (⟨⟨1, [], []⟩, ⟨[]⟩⟩ : RAGState).idx ∧
    ¬ aligned (runOps ⟨⟨1, [], []⟩, ⟨[]⟩⟩ [.add [[0]] ["a", "b"]]).idx :=
  ⟨by decide, by decide⟩

/-- One well-formed operation preserves alignment. -/
theorem stepOp_aligned (s : RAGState) (op : IndexOp) (h0 : aligned s.idx)
    (hop : wfOp s op = true) : aligned (stepOp s op).idx := by
  cases op with
  | add vs cs =>
    have hlen : vs.length = cs.length := by
      simpa [wfOp] using hop
    simp only [stepOp]
    cases hadd : s.idx.add_vectors vs cs with
    | error e => exact h0
    | ok i =>
      unfold FAISSIndex.add_vectors at hadd
      split at hadd
      · cases hadd
        simp [aligned, List.length_append, h0, hlen]
      · cases hadd
  | load fi fc =>
    simp only [stepOp]
    cases hfi : s.fs.read fi with
    | none => simp [wfOp, hfi] at hop
    | some fd =>
      cases fd with
      | chunksData cs => simp [wfOp, hfi] at hop
      | indexData d vs =>
        cases hfc : s.fs.read fc with
        | none => simp [wfOp, hfi, hfc] at hop
        | some fd2 =>
          cases fd2 with
          | indexData d2 vs2 => simp [wfOp, hfi, hfc] at hop
          | chunksData cs =>
            have hlen : vs.length = cs.length := by
              simpa [wfOp, hfi, hfc] using hop
            simp [FAISSIndex.load, hfi, hfc, aligned, hlen]
  | clear =>
    simp [stepOp, RAGModel.clear_index, aligned, FAISSIndex.init]

/-- Claim C1 (amended): the alignment invariant `len(vectors) == len(chunks)`
is preserved by every sequence of well-formed operations — `add` called with
as many vectors as chunks, `load` from two existing locations holding equally
many vectors and chunks, and `clear` unconditionally.  (It is not preserved
unconditionally: see the counterexample.) -/
theorem ops_preserve_alignment (ops : List IndexOp) (s : RAGState)
    (h0 : aligned s.idx) (hwf : wfOps s ops = true) :
    aligned (runOps s ops).idx := by
  induction ops generalizing s with
  | nil => exact h0
  | cons op rest ih =>
    obtain ⟨h1, h2⟩ := Bool.and_eq_true_iff.mp (by simpa [wfOps] using hwf)
    exact ih (stepOp s op) (stepOp_aligned s op h0 h1) h2

/-- Witness for the amended C1: an aligned add, a well-formed load, and a
clear, run in sequence from an aligned state. -/
theorem ops_preserve_alignment_witness :
    wfOps ⟨⟨1, [[2]], ["x"]⟩,
        ⟨[("i", .indexData 2 [[1, 1], [2, 2]]),
          ("c", .chunksData ["u", "v"])]⟩⟩
      [.add [[5]] ["y"], .load "i" "c", .clear] = true ∧
    aligned (runOps ⟨⟨1, [[2]], ["x"]⟩,
        ⟨[("i", .indexData 2 [[1, 1], [2, 2]]),
          ("c", .chunksData ["u", "v"])]⟩⟩
      [.add [[5]] ["y"], .load "i" "c", .clear]).idx :=
  ⟨by decide,
   ops_preserve_alignment [.add [[5]] ["y"], .load "i" "c", .clear]
     ⟨⟨1, [[2]], ["x"]⟩,
       ⟨[("i", .indexData 2 [[1, 1], [2, 2]]),
         ("c", .chunksData ["u", "v"])]⟩⟩
     (by decide) (by decide)⟩

/-! ### Claim C7 -/

set_option maxRecDepth 100000 in
/-- Claim C7: the chunker splits on blank-line (`"\n\n"`) boundaries, drops
units empty after trimming, emits units of at most 512 characters unchanged,
and re-splits longer units into groups of 100 words joined by single spaces —
stated as equality with `chunkSpec`, the spec-worded formulation (including
its slice-based grouping).  Concretely, a short line plus a blank line plus
150 repeated words yields the short line and ceil(150/100) = 2 word-group
chunks, and an input of only blank lines yields zero chunks. -/
theorem chunker_spec :
    (∀ text : String, processText text = chunkSpec text) ∧
    processText (String.mk ("A short line.\n\n".data ++
        (List.replicate 150 "word ".data).flatten)) =
      ["A short line.",
        String.mk (joinWords (List.replicate 100 "word".data)),
        String.mk (joinWords (List.replicate 50 "word".data))] ∧
    processText "\n\n \n\n" = [] := by
  refine ⟨?_, by decide, by decide⟩
  intro text
  unfold processText chunkSpec processPageText
  rw [funext chunkParagraph_eq_spec]

/-! ### Claim C8 -/

set_option maxRecDepth 100000 in
/-- Claim C8 exhibit (code bug): `query` on an empty index does not return
empty contexts and distances — faiss returns the sentinel label `-1` for
every slot, and `self.index.chunks[-1]` on the empty chunk list raises
`IndexError`.  Evaluated here at a fresh (empty, dimension-384) model state
with a dimension-384 embedder and `top_k = 3`. -/
theorem query_empty_index_raises :
    RAGModel.query (fun _ => List.replicate 384 0) (fun _ => "")
        ⟨FAISSIndex.init 384, ⟨[]⟩⟩ "What is this about?" 3 =
      (.error .indexError, ⟨FAISSIndex.init 384, ⟨[]⟩⟩) := by
  decide

/-! ### Claim C9 -/

/-- Claim C9: `clear_index` replaces the in-memory index with an empty one
and deletes both persisted-state locations when present; it is idempotent
(absence of a file is not an error — deletion is guarded by an existence
check, so a second `clear_index` succeeds and changes nothing); a subsequent
`load` against the deleted locations fails with the not-found error; and an
`index_document` call immediately after `clear_index` produces an index
containing exactly the new document's chunks — no residue from before the
clear.  The hypothesis is that the embedder produces vectors of the index
dimension 384 (the Embedder interface of the spec). -/
theorem clear_index_spec (embed : String → Vec) (s : RAGState)
    (pages : List String) (hembed : ∀ c, (embed c).length = 384) :
    (RAGModel.clear_index s).idx = FAISSIndex.init 384 ∧
    (RAGModel.clear_index s).fs.read indexFile = none ∧
    (RAGModel.clear_index s).fs.read chunksFile = none ∧
    RAGModel.clear_index (RAGModel.clear_index s) = RAGModel.clear_index s ∧
    FAISSIndex.load (RAGModel.clear_index s).idx (RAGModel.clear_index s).fs
        indexFile chunksFile =
      .error (.notFound, (RAGModel.clear_index s).idx) ∧
    ∃ s' : RAGState,
      RAGModel.index_document embed (RAGModel.clear_index s) pages =
        .ok ((processPdf pages).length, s') ∧
      s'.idx.chunks = processPdf pages ∧
      s'.idx.vectors.length = (processPdf pages).length := by
  have hne : indexFile ≠ chunksFile := by decide
  have hread1 : (RAGModel.clear_index s).fs.read indexFile = none := by
    unfold RAGModel.clear_index
    rw [FS.read_remove_ne (s.fs.remove indexFile) chunksFile indexFile hne]
    exact FS.read_remove_self s.fs indexFile
  have hread2 : (RAGModel.clear_index s).fs.read chunksFile = none :=
    FS.read_remove_self _ _
  refine ⟨rfl, hread1, hread2, ?_, ?_, ?_⟩
  · unfold RAGModel.clear_index
    congr 1
    rw [FS.remove_comm (s.fs.remove indexFile) chunksFile indexFile,
      FS.remove_remove_self, FS.remove_remove_self]
  · unfold FAISSIndex.load
    rw [hread1]
  · have hadd : (FAISSIndex.init 384).add_vectors
        ((processPdf pages).map embed) (processPdf pages) =
        .ok ⟨384, (processPdf pages).map embed, processPdf pages⟩ := by
      unfold FAISSIndex.add_vectors
      rw [if_pos ?_]
      · rfl
      · intro v hv
        obtain ⟨c, _, rfl⟩ := List.mem_map.mp hv
        exact hembed c
    refine ⟨⟨⟨384, (processPdf pages).map embed, processPdf pages⟩,
      FAISSIndex.save ⟨384, (processPdf pages).map embed, processPdf pages⟩
        (RAGModel.clear_index s).fs indexFile chunksFile⟩, ?_, rfl, ?_⟩
    · unfold RAGModel.index_document
      dsimp only [RAGModel.clear_index]
      rw [hadd]
    · simp

/-- Witness for C9 at a concrete dirty state (a stale in-memory index, a
stale persisted chunks file) with a constant 384-dimensional embedder and a
one-page document. -/
theorem clear_index_spec_witness :
    (RAGModel.clear_index ⟨⟨1, [[2]], ["old"]⟩,
        ⟨[(indexFile, .chunksData ["junk"])]⟩⟩).idx = FAISSIndex.init 384 ∧
    (RAGModel.clear_index ⟨⟨1, [[2]], ["old"]⟩,
        ⟨[(indexFile, .chunksData ["junk"])]⟩⟩).fs.read indexFile = none ∧
    (RAGModel.clear_index ⟨⟨1, [[2]], ["old"]⟩,
        ⟨[(indexFile, .chunksData ["junk"])]⟩⟩).fs.read chunksFile = none ∧
    RAGModel.clear_index (RAGModel.clear_index ⟨⟨1, [[2]], ["old"]⟩,
        ⟨[(indexFile, .chunksData ["junk"])]⟩⟩) =
      RAGModel.clear_index ⟨⟨1, [[2]], ["old"]⟩,
        ⟨[(indexFile, .chunksData ["junk"])]⟩⟩ ∧
    FAISSIndex.load
        (RAGModel.clear_index ⟨⟨1, [[2]], ["old"]⟩,
          ⟨[(indexFile, .chunksData ["junk"])]⟩⟩).idx
        (RAGModel.clear_index ⟨⟨1, [[2]], ["old"]⟩,
          ⟨[(indexFile, .chunksData ["junk"])]⟩⟩).fs
        indexFile chunksFile =
      .error (.notFound,
        (RAGModel.clear_index ⟨⟨1, [[2]], ["old"]⟩,
          ⟨[(indexFile, .chunksData ["junk"])]⟩⟩).idx) ∧
    ∃ s' : RAGState,
      RAGModel.index_document (fun _ => List.replicate 384 0)
          (RAGModel.clear_index ⟨⟨1, [[2]], ["old"]⟩,
            ⟨[(indexFile, .chunksData ["junk"])]⟩⟩) ["hello"] =
        .ok ((processPdf ["hello"]).length, s') ∧
      s'.idx.chunks = processPdf ["hello"] ∧
      s'.idx.vectors.length = (processPdf ["hello"]).length :=
  clear_index_spec (fun _ => List.replicate 384 0)
    ⟨⟨1, [[2]], ["old"]⟩, ⟨[(indexFile, .chunksData ["junk"])]⟩⟩
    ["hello"] (fun _ => by rw [List.length_replicate])

/-! ### Claim C10 -/

/-- Claim C10: `search` (and the orchestrator's `query` built on it) leaves
the index unchanged — the stored vectors and the chunks list are identical
before and after the call, for every state, query and `k`, on both the
success and the error paths. -/
theorem search_query_leave_index_unchanged :
    (∀ (s : FAISSIndex) (q : Vec) (k : ℕ), (s.searchM q k).2 = s) ∧
    (∀ (embed : String → Vec) (gen : String → String) (s : RAGState)
      (question : String) (k : ℕ),
      (RAGModel.query embed gen s question k).2 = s) := by
  refine ⟨fun _ _ _ => rfl, fun embed gen s question k => ?_⟩
  unfold RAGModel.query
  cases FAISSIndex.search s.idx (embed question) k with
  | error e => rfl
  | ok r =>
    obtain ⟨ds, is⟩ := r
    dsimp only
    cases is.mapM (pyGet s.idx.chunks) with
    | none => rfl
    | some cs => rfl
